import Mathlib

/-!
Shallow embedding of the combotsha repository: the commit watcher and the
IRC client of the two source files.

`Combotcha` models `src/combotcha.py`, the hand-rolled implementation:
its `Repository.get_new_commits` (sha-string marker, `startswith` stop
condition, no reversal, no fetch error handling), its `IRCSession`
framing (`_pop_message`), handshake (`sign_in`, `_identify`,
`_get_payload_status`), and keepalive (`_pong`, `_handle_message`).

`Combotsha` models `src/combotsha/combotsha.py`, the library-based
reimplementation: `_Repository.get_new_commits` (commit-identity marker,
fetch errors swallowed, reversed result), the announcement pass
`check_repo_new_commits` (rate limiting), and `_IrcBot.on_nicknameinuse`.

Side effects are made explicit: a fetch outcome is passed in as an
`Option` (`none` is a network/resolution failure, `some h` is the
post-fetch `origin/master` history, tip first), outbound IRC traffic is
returned as a list of `Command` values, and exceptions escaping a Python
function are `Except.error` values.
-/

/-- An outbound IRC command, as produced by `_send_command` call sites in
both implementations.  `nick n` is `NICK n`; `user n` is
`USER n * * :n`; `join ch` is `JOIN ch`; `pong a` is `PONG a`;
`quit` is the `QUIT :...` farewell. -/
inductive Command where
  | nick (n : List Char)
  | user (n : List Char)
  | join (ch : List Char)
  | privmsg (ch : List Char) (msg : List Char)
  | pong (arg : List Char)
  | quit
deriving DecidableEq, Repr

/-- Python's substring containment `needle in hay` on strings. -/
def substring_in (needle : List Char) : List Char → Bool
  | [] => needle.isPrefixOf []
  | c :: rest => needle.isPrefixOf (c :: rest) || substring_in needle rest

namespace Combotsha

/-- A commit as read from history: full hash and authored timestamp
(the fields the verified claims are about).  `git.Commit` equality is
full-identity equality, which the derived `DecidableEq` mirrors. -/
structure Commit where
  hexsha : List Char
  ts : Int
deriving DecidableEq, Repr

/-- `_Repository.get_new_commits` of `src/combotsha/combotsha.py`.
State is the `_last_seen_commit` marker; the fetch outcome is passed in
(`none`: `git.exc.GitCommandError`/`BadName`, caught and swallowed;
`some history`: post-fetch `origin/master`, tip first).  The walk
accumulates commits until one equals the marker (`commit ==
self._last_seen_commit`, full identity), then the marker is set to
`new_commits[0]` when any were found, and the reversed list is
returned.  Result: (new marker, returned commits). -/
def get_new_commits (last_seen : Commit) (fetch : Option (List Commit)) :
    Commit × List Commit :=
  match fetch with
  | none => (last_seen, [])
  | some history =>
    let new_commits := history.takeWhile fun c => decide (c ≠ last_seen)
    match new_commits with
    | [] => (last_seen, [])
    | newest :: _ => (newest, new_commits.reverse)

/-- An observable step of the announcement pass: one channel message for
a commit, or one `time.sleep` of the given number of seconds. -/
inductive Event where
  | message (c : Commit)
  | sleep (seconds : Nat)
deriving DecidableEq, Repr

/-- The per-batch body of `check_repo_new_commits` of
`src/combotsha/combotsha.py`, applied to the batch returned by
`get_new_commits`: if the batch is empty, return; otherwise set
`rate_limit` when the batch has more than 5 commits, and for each
commit send its message and, if `rate_limit`, sleep 1 second. -/
def check_repo_new_commits (new_commits : List Commit) : List Event :=
  if new_commits.length = 0 then []
  else
    let rate_limit := decide (new_commits.length > 5)
    (new_commits.map fun c =>
      Event.message c :: (if rate_limit then [Event.sleep 1] else [])).flatten

/-- Number of `sleep` events in a trace of the announcement pass. -/
def sleep_count (events : List Event) : Nat :=
  events.countP fun e =>
    match e with
    | Event.sleep _ => true
    | _ => false

/-- `_IrcBot.on_nicknameinuse` of `src/combotsha/combotsha.py`: on a 433
reply the bot retries with the current nickname plus a `_` marker
character (`connection.nick(f'{connection.get_nickname()}_')`). -/
def on_nicknameinuse (current_nick : List Char) : List Command :=
  [Command.nick (current_nick ++ ['_'])]

end Combotsha

namespace Combotcha

/-- A commit of the hand-rolled implementation: full hash string and
authored timestamp. -/
structure Commit where
  hexsha : List Char
  ts : Int
deriving DecidableEq, Repr

/-- An exception escaping a Python call in `src/combotcha.py`. -/
inductive PyError where
  | gitCommandError
  | typeError
deriving DecidableEq, Repr

/-- `Repository` state of `src/combotcha.py`: the local clone's
`origin/master` history (tip first) and `_last_seen_commit_sha`
(a raw sha string, possibly `None`). -/
structure RepoState where
  history : List Commit
  last_seen_commit_sha : Option (List Char)
deriving DecidableEq, Repr

/-- `Repository.get_new_commits` of `src/combotcha.py`.  If the marker
is `None`, the first commit of the (unfetched) local history becomes the
marker and `[]` is returned — no fetch happens.  Otherwise
`self._repo.remotes.origin.fetch()` runs unguarded (a failing fetch,
`fetch = none`, escapes as `git.exc.GitCommandError`), then the walk
accumulates commits until `commit.hexsha.startswith(self._last_seen_commit_sha)`,
sets the marker to `new_commits[0].hexsha` when any were found, and
returns the list in walk order (no reversal).  With a `None` marker and
an empty local history the marker branch falls through and
`startswith(None)` would raise `TypeError` on the first walked commit.
Result: (new state, returned commits, whether a fetch was performed). -/
def get_new_commits (st : RepoState) (fetch : Option (List Commit)) :
    Except PyError (RepoState × List Commit × Bool) :=
  match st.last_seen_commit_sha, st.history with
  | none, tip :: _ =>
    Except.ok ({ st with last_seen_commit_sha := some tip.hexsha }, [], false)
  | last, _ =>
    match fetch with
    | none => Except.error PyError.gitCommandError
    | some remote =>
      match last with
      | none =>
        match remote with
        | [] => Except.ok ({ st with history := remote }, [], true)
        | _ => Except.error PyError.typeError
      | some sha =>
        let new_commits := remote.takeWhile fun c => !(sha.isPrefixOf c.hexsha)
        match new_commits with
        | [] => Except.ok ({ st with history := remote }, [], true)
        | newest :: _ =>
          Except.ok
            ({ history := remote, last_seen_commit_sha := some newest.hexsha },
              new_commits, true)

/-- `IRCSession._identify`: the identification pair, one `NICK` plus one
`USER` command. -/
def identify (nickname : List Char) : List Command :=
  [Command.nick nickname, Command.user nickname]

/-- `[0-9]` character class. -/
def is_digit (c : Char) : Bool := decide ('0' ≤ c) && decide (c ≤ '9')

/-- Numeric value of a digit character. -/
def digit_val (c : Char) : Nat := c.toNat - '0'.toNat

/-- One candidate position of the `_status_pattern` regex
`^.* ([0-9][0-9][0-9]) .*`: the suffix starts with a space, three
digits and a space. -/
def status_here : List Char → Option Nat
  | ' ' :: d1 :: d2 :: d3 :: ' ' :: _ =>
    if is_digit d1 && is_digit d2 && is_digit d3 then
      some (100 * digit_val d1 + 10 * digit_val d2 + digit_val d3)
    else none
  | _ => none

/-- `IRCSession._get_payload_status`: `re.match` of
`^.* ([0-9][0-9][0-9]) .*` with a greedy leading `.*`, so the LAST
position where a three-digit group sits between two spaces wins; `None`
when the pattern does not match (the bare `except` swallows the
`TypeError` of subscripting a failed match). -/
def get_payload_status : List Char → Option Nat
  | [] => none
  | c :: rest =>
    match get_payload_status rest with
    | some v => some v
    | none => status_here (c :: rest)

/-- Result of running `IRCSession.sign_in` against a finite sequence of
received lines: the loop broke out on a 366 reply (`ok`), raised
`NicknameInUse` on a 433 reply (`nickname_in_use`), or would block in
`_receive` waiting for more input (`blocked`). -/
inductive SignInOutcome where
  | ok
  | nickname_in_use
  | blocked
deriving DecidableEq, Repr

/-- The trigger substring of the identification branch of `sign_in`. -/
def ident_response : List Char := "No Ident response".toList

/-- `IRCSession.sign_in` of `src/combotcha.py`, driven by a list of
received lines instead of the blocking `_receive`.  For each line: if it
contains `"No Ident response"`, send the identification pair; else if
its status is 433, send `QUIT` and raise `NicknameInUse`; else if 376,
send `JOIN`; else if 366, break out; otherwise keep looping.  Returns
the outbound commands in order and the outcome. -/
def sign_in (nickname channel : List Char) :
    List (List Char) → List Command × SignInOutcome
  | [] => ([], SignInOutcome.blocked)
  | payload :: rest =>
    if substring_in ident_response payload then
      let r := sign_in nickname channel rest
      (identify nickname ++ r.1, r.2)
    else
      match get_payload_status payload with
      | some 433 => ([Command.quit], SignInOutcome.nickname_in_use)
      | some 376 =>
        let r := sign_in nickname channel rest
        (Command.join channel :: r.1, r.2)
      | some 366 => ([], SignInOutcome.ok)
      | _ => sign_in nickname channel rest

/-- `IRCSession._pop_message` of `src/combotcha.py` on a byte buffer
(bytes as `Nat`, `13`/`10` for CR/LF).  When the buffer holds more than
one byte, scan `i` over `range(1, len(buf))` for the first `i` with
`buf[i-1:i+1] == b'\r\n'`; on a match the message is `buf[:i-1]` and
`buf[:i+1]` is deleted from the front.  Returns the optional message and
the remaining buffer. -/
def pop_message (buf : List Nat) : Option (List Nat) × List Nat :=
  if 1 < buf.length then
    match ((List.range buf.length).drop 1).find?
        (fun i => decide ((buf.drop (i - 1)).take 2 = [13, 10])) with
    | some i => (some (buf.take (i - 1)), buf.drop (i + 1))
    | none => (none, buf)
  else (none, buf)

/-- Fueled extraction loop: pop messages with `pop_message` until it
returns `None`, as the receive loop does between raw reads.  Each
successful pop removes at least the two delimiter bytes, so
`buf.length` is always enough fuel. -/
def pop_all_fuel : Nat → List Nat → List (List Nat) × List Nat
  | 0, buf => ([], buf)
  | Nat.succ fuel, buf =>
    match pop_message buf with
    | (some m, r) =>
      ((m :: (pop_all_fuel fuel r).1), (pop_all_fuel fuel r).2)
    | (none, _) => ([], buf)

/-- Pop every complete message out of the reception buffer; returns the
extracted messages in order and the leftover partial bytes. -/
def pop_all (buf : List Nat) : List (List Nat) × List Nat :=
  pop_all_fuel buf.length buf

/-- Feed successive raw reads into the reception buffer, extracting all
complete messages after each append (the `_receive` loop of
`src/combotcha.py` over a prescribed partition of the byte stream).
Returns all extracted messages in order and the final buffer. -/
def feed_chunks : List (List Nat) → List Nat → List (List Nat) × List Nat
  | [], buf => ([], buf)
  | c :: cs, buf =>
    let p := pop_all (buf ++ c)
    let f := feed_chunks cs p.2
    (p.1 ++ f.1, f.2)

/-- A byte sequence free of the two-byte `\r\n` delimiter. -/
def no_crlf : List Nat → Bool
  | [] => true
  | [_] => true
  | a :: b :: rest =>
    if a = 13 ∧ b = 10 then false else no_crlf (b :: rest)

/-- The CRLF-delimited encoding of a message sequence: each message
followed by `\r\n`, concatenated — the wire form the server sends. -/
def encode (msgs : List (List Nat)) : List Nat :=
  (msgs.map fun m => m ++ [13, 10]).flatten

/-- Python's `str.split(":")` on a character list. -/
def split_on_colon : List Char → List (List Char)
  | [] => [[]]
  | ':' :: rest => [] :: split_on_colon rest
  | c :: rest =>
    match split_on_colon rest with
    | s :: ss => (c :: s) :: ss
    | [] => [[c]]

/-- `IRCSession._pong`: reply with `PONG :<payload.split(":")[1]>`.
`none` models the `IndexError` raised when the payload has no colon. -/
def pong (payload : List Char) : Option Command :=
  match split_on_colon payload with
  | _ :: seg :: _ => some (Command.pong (':' :: seg))
  | _ => none

/-- The keepalive trigger substring checked by `_handle_message`. -/
def ping_token : List Char := "PING".toList

/-- `IRCSession._handle_message`: any line containing `PING` is answered
with one `PONG`; other lines send nothing.  `none` models the
uncaught `IndexError` from `_pong` on a colon-free `PING` line. -/
def handle_message (payload : List Char) : Option (List Command) :=
  if substring_in ping_token payload then
    (pong payload).map fun c => [c]
  else some []

end Combotcha

/-! Concrete inputs used by counterexamples and witnesses. -/

/-- A batch of six distinct commits. -/
def six_commits : List Combotsha.Commit :=
  (List.range 6).map fun i => { hexsha := ['c'], ts := (i : Int) }

def ctc_c0 : Combotcha.Commit := { hexsha := "a0".toList, ts := 0 }

def ctc_c1 : Combotcha.Commit := { hexsha := "a1".toList, ts := 10 }

def ctc_c2 : Combotcha.Commit := { hexsha := "a2".toList, ts := 20 }

/-- A hand-rolled `Repository` whose marker is the full sha of `ctc_c0`. -/
def ctc_state : Combotcha.RepoState :=
  { history := [ctc_c0], last_seen_commit_sha := some "a0".toList }

/-- The remote after two pushes on top of `ctc_c0`, tip first. -/
def ctc_remote : List Combotcha.Commit := [ctc_c2, ctc_c1, ctc_c0]

/-- A commit whose hash merely extends the marker string `"ab"`. -/
def pfx_commit : Combotcha.Commit := { hexsha := "abc".toList, ts := 1 }

def pfx_old : Combotcha.Commit := { hexsha := "ab".toList, ts := 0 }

/-- A hand-rolled `Repository` whose marker string is `"ab"`. -/
def pfx_state : Combotcha.RepoState :=
  { history := [pfx_old], last_seen_commit_sha := some "ab".toList }

def w_marker : Combotsha.Commit := { hexsha := "aa".toList, ts := 0 }

def w_new1 : Combotsha.Commit := { hexsha := "bb".toList, ts := 1 }

def w_new2 : Combotsha.Commit := { hexsha := "cc".toList, ts := 2 }

/-- A reimplementation commit whose hash extends the marker's hash. -/
def w_ext : Combotsha.Commit := { hexsha := "aab".toList, ts := 3 }

def w10_tip : Combotcha.Commit := { hexsha := "t0".toList, ts := 0 }

def w10_new : Combotcha.Commit := { hexsha := "t1".toList, ts := 1 }

/-- A freshly cloned hand-rolled `Repository` with no starting sha. -/
def w10_state : Combotcha.RepoState :=
  { history := [w10_tip], last_seen_commit_sha := none }

/-! Helper lemmas. -/

theorem sleep_count_flatten (rl : Bool) (l : List Combotsha.Commit) :
    Combotsha.sleep_count
      ((l.map fun c =>
        Combotsha.Event.message c ::
          (if rl then [Combotsha.Event.sleep 1] else [])).flatten) =
      if rl then l.length else 0 := by
  induction l with
  | nil => cases rl <;> simp [Combotsha.sleep_count]
  | cons c t ih =>
    cases rl <;>
      simp_all [Combotsha.sleep_count, List.countP_cons, List.countP_append]

theorem takeWhile_middle {α : Type} (p : α → Bool) (l₁ l₂ : List α) (a : α)
    (h₁ : ∀ x ∈ l₁, p x = true) (h₂ : p a = false) :
    (l₁ ++ a :: l₂).takeWhile p = l₁ := by
  induction l₁ with
  | nil => simp [List.takeWhile_cons, h₂]
  | cons b t ih =>
    have hb : p b = true := h₁ b (by simp)
    simp [List.takeWhile_cons, hb]
    exact ih fun x hx => h₁ x (by simp [hx])

/-! C1: rate limiting in the announcement pass. -/

/-- C1 counterexample: a batch of exactly 6 commits produces 6 one-second
delays, not the 5 (= size − 1) the claim states — `check_repo_new_commits`
sleeps after every per-commit send, including the last. -/
theorem rate_limit_six_commits_cex :
    Combotsha.sleep_count (Combotsha.check_repo_new_commits six_commits) = 6 ∧
    Combotsha.sleep_count (Combotsha.check_repo_new_commits six_commits) ≠ 5 := by
  constructor <;> decide

/-- C1 (amended): when the batch size exceeds 5 the announcement pass of
`check_repo_new_commits` inserts a one-second delay after every
per-commit send (so size-many delays, 6 for a batch of 6); a batch of 5
or fewer produces zero delays. -/
theorem rate_limit_delay_count (new_commits : List Combotsha.Commit) :
    Combotsha.sleep_count (Combotsha.check_repo_new_commits new_commits) =
      if 5 < new_commits.length then new_commits.length else 0 := by
  unfold Combotsha.check_repo_new_commits
  by_cases h : new_commits.length = 0
  · simp [h, Combotsha.sleep_count]
  · rw [if_neg h, sleep_count_flatten]
    by_cases h5 : 5 < new_commits.length
    · simp [h5]
    · simp [h5]

/-! C3: behavior on fetch failure. -/

/-- C3 counterexample: the hand-rolled `Repository.get_new_commits` of
`src/combotcha.py` does not guard its fetch — an ordinary network
failure escapes as an exception instead of yielding an empty list. -/
theorem fetch_failure_raises_cex :
    Combotcha.get_new_commits ctc_state none =
      Except.error Combotcha.PyError.gitCommandError := rfl

/-- C3 (amended): the reimplementation's `_Repository.get_new_commits`
swallows any fetch failure, returning an empty list and leaving the
last-seen marker unchanged; the hand-rolled `combotcha.py` version,
by contrast, propagates the fetch exception. -/
theorem fetch_failure_swallowed (last_seen : Combotsha.Commit) :
    Combotsha.get_new_commits last_seen none = (last_seen, []) := rfl

/-! C2: batch order. -/

/-- C2 counterexample: the hand-rolled `Repository.get_new_commits`
returns the walk order unreversed — after two pushes it yields the
newest commit first, so the authored timestamps decrease. -/
theorem batch_walk_order_cex :
    Combotcha.get_new_commits ctc_state (some ctc_remote) =
      Except.ok
        ({ history := ctc_remote, last_seen_commit_sha := some ctc_c2.hexsha },
          [ctc_c2, ctc_c1], true) ∧
    ctc_c1.ts < ctc_c2.ts := by
  exact ⟨rfl, by decide⟩

/-- C2 (amended): the reimplementation's `_Repository.get_new_commits`
returns the newly discovered commits oldest-first (the reverse of the
tip-backward walk), and when authored timestamps are non-increasing
along the tip-backward history the returned timestamps are
non-decreasing; the hand-rolled `combotcha.py` version returns the walk
order unreversed (newest first). -/
theorem batch_oldest_first (marker : Combotsha.Commit)
    (pre rest : List Combotsha.Commit)
    (hm : marker ∉ pre)
    (hmono : (pre ++ marker :: rest).Pairwise fun a b => b.ts ≤ a.ts) :
    (Combotsha.get_new_commits marker (some (pre ++ marker :: rest))).2 =
      pre.reverse ∧
    ((Combotsha.get_new_commits marker (some (pre ++ marker :: rest))).2).Pairwise
      (fun a b => a.ts ≤ b.ts) := by
  have hpre : (pre ++ marker :: rest).takeWhile
      (fun c => decide (c ≠ marker)) = pre := by
    refine takeWhile_middle _ pre rest marker (fun x hx => ?_) (by simp)
    simp only [decide_eq_true_eq]
    exact fun he => hm (he ▸ hx)
  have h2 : (Combotsha.get_new_commits marker
      (some (pre ++ marker :: rest))).2 = pre.reverse := by
    unfold Combotsha.get_new_commits
    simp only [hpre]
    match pre with
    | [] => rfl
    | a :: t => rfl
  refine ⟨h2, ?_⟩
  rw [h2, List.pairwise_reverse]
  have : pre.Pairwise fun a b => b.ts ≤ a.ts :=
    List.Pairwise.sublist (List.sublist_append_left pre (marker :: rest)) hmono
  exact this.imp fun h => h

/-- C2 witness. -/
theorem batch_oldest_first_witness :
    w_marker ∉ [w_new2, w_new1] ∧
    ([w_new2, w_new1] ++ w_marker :: []).Pairwise (fun a b => b.ts ≤ a.ts) ∧
    ((Combotsha.get_new_commits w_marker
        (some ([w_new2, w_new1] ++ w_marker :: []))).2 =
      [w_new2, w_new1].reverse ∧
    ((Combotsha.get_new_commits w_marker
        (some ([w_new2, w_new1] ++ w_marker :: []))).2).Pairwise
      (fun a b => a.ts ≤ b.ts)) :=
  ⟨by decide, by decide,
    batch_oldest_first w_marker [w_new2, w_new1] [] (by decide) (by decide)⟩

/-! C4: how the walk recognizes the marker. -/

/-- C4 counterexample: in the hand-rolled implementation a commit whose
hash merely starts with the marker string DOES terminate the walk — with
marker `"ab"` and a new tip `"abc"`, `startswith` breaks at the tip and
the genuinely new commit is never reported. -/
theorem walk_prefix_stop_cex :
    ("ab".toList).isPrefixOf pfx_commit.hexsha = true ∧
    pfx_commit.hexsha ≠ "ab".toList ∧
    Combotcha.get_new_commits pfx_state (some [pfx_commit, pfx_old]) =
      Except.ok
        ({ history := [pfx_commit, pfx_old],
            last_seen_commit_sha := some "ab".toList }, [], true) := by
  exact ⟨by decide, by decide, rfl⟩

/-- C4 (amended): the reimplementation's walk stops at the marker by
full commit identity, so a commit whose hash merely extends the marker's
hash does not terminate the walk and is reported; the hand-rolled
`combotcha.py` walk compares by `startswith`, where such a commit does
terminate the walk. -/
theorem walk_full_identity (marker c : Combotsha.Commit)
    (pre rest : List Combotsha.Commit)
    (hc : c ∈ pre) (hm : marker ∉ pre)
    (hpfx : marker.hexsha.isPrefixOf c.hexsha = true) :
    (Combotsha.get_new_commits marker (some (pre ++ marker :: rest))).2 =
      pre.reverse ∧
    c ∈ (Combotsha.get_new_commits marker (some (pre ++ marker :: rest))).2 := by
  have hpre : (pre ++ marker :: rest).takeWhile
      (fun x => decide (x ≠ marker)) = pre := by
    refine takeWhile_middle _ pre rest marker (fun x hx => ?_) (by simp)
    simp only [decide_eq_true_eq]
    exact fun he => hm (he ▸ hx)
  have h2 : (Combotsha.get_new_commits marker
      (some (pre ++ marker :: rest))).2 = pre.reverse := by
    unfold Combotsha.get_new_commits
    simp only [hpre]
    match pre with
    | [] => rfl
    | a :: t => rfl
  exact ⟨h2, by rw [h2]; simpa using hc⟩

/-- C4 witness. -/
theorem walk_full_identity_witness :
    w_ext ∈ [w_ext] ∧ w_marker ∉ [w_ext] ∧
    w_marker.hexsha.isPrefixOf w_ext.hexsha = true ∧
    ((Combotsha.get_new_commits w_marker (some ([w_ext] ++ w_marker :: []))).2 =
      [w_ext].reverse ∧
    w_ext ∈ (Combotsha.get_new_commits w_marker
      (some ([w_ext] ++ w_marker :: []))).2) :=
  ⟨by decide, by decide, by decide,
    walk_full_identity w_marker w_ext [w_ext] [] (by decide) (by decide)
      (by decide)⟩

/-! C5: marker monotonicity. -/

/-- C5: each poll of the reimplementation either returns an empty batch
and leaves the last-seen marker unchanged, or advances the marker to a
commit that is strictly newer (it lies strictly above the old marker in
the tip-first history) and was included in the returned batch.  The
fetch outcome may be a failure or any history containing the marker. -/
theorem marker_monotonic (marker : Combotsha.Commit)
    (pre rest : List Combotsha.Commit)
    (fetch : Option (List Combotsha.Commit))
    (hf : fetch = none ∨ fetch = some (pre ++ marker :: rest))
    (hm : marker ∉ pre) :
    ((Combotsha.get_new_commits marker fetch).2 = [] ∧
      (Combotsha.get_new_commits marker fetch).1 = marker) ∨
    ((Combotsha.get_new_commits marker fetch).1 ∈
        (Combotsha.get_new_commits marker fetch).2 ∧
      (Combotsha.get_new_commits marker fetch).1 ∈ pre ∧
      (Combotsha.get_new_commits marker fetch).1 ≠ marker) := by
  rcases hf with hf | hf
  · subst hf
    exact Or.inl ⟨rfl, rfl⟩
  · subst hf
    cases pre with
    | nil =>
      refine Or.inl ?_
      have hres : Combotsha.get_new_commits marker
          (some ([] ++ marker :: rest)) = (marker, []) := by
        unfold Combotsha.get_new_commits
        simp [List.takeWhile_cons]
      rw [hres]
      exact ⟨rfl, rfl⟩
    | cons newest t =>
      have hpre : ((newest :: t) ++ marker :: rest).takeWhile
          (fun x => decide (x ≠ marker)) = newest :: t := by
        refine takeWhile_middle _ _ rest marker (fun x hx => ?_) (by simp)
        simp only [decide_eq_true_eq]
        exact fun he => hm (he ▸ hx)
      have hres : Combotsha.get_new_commits marker
          (some ((newest :: t) ++ marker :: rest)) =
          (newest, (newest :: t).reverse) := by
        unfold Combotsha.get_new_commits
        simp only [hpre]
      rw [hres]
      refine Or.inr ⟨by simp, by simp, fun he => hm ?_⟩
      simp [← he]

/-- C5 witness. -/
theorem marker_monotonic_witness :
    ((some [w_new1, w_marker] : Option (List Combotsha.Commit)) = none ∨
      (some [w_new1, w_marker] : Option (List Combotsha.Commit)) =
        some ([w_new1] ++ w_marker :: [])) ∧
    w_marker ∉ [w_new1] ∧
    (((Combotsha.get_new_commits w_marker (some [w_new1, w_marker])).2 = [] ∧
      (Combotsha.get_new_commits w_marker (some [w_new1, w_marker])).1 =
        w_marker) ∨
    ((Combotsha.get_new_commits w_marker (some [w_new1, w_marker])).1 ∈
        (Combotsha.get_new_commits w_marker (some [w_new1, w_marker])).2 ∧
      (Combotsha.get_new_commits w_marker (some [w_new1, w_marker])).1 ∈
        [w_new1] ∧
      (Combotsha.get_new_commits w_marker (some [w_new1, w_marker])).1 ≠
        w_marker)) :=
  ⟨Or.inr rfl, by decide,
    marker_monotonic w_marker [w_new1] [] (some [w_new1, w_marker])
      (Or.inr rfl) (by decide)⟩

/-! Framing lemmas for C6. -/

theorem no_crlf_iff_forall (l : List Nat) :
    Combotcha.no_crlf l = true ↔ ∀ j, (l.drop j).take 2 ≠ [13, 10] := by
  induction l using Combotcha.no_crlf.induct with
  | case1 => simp [Combotcha.no_crlf]
  | case2 a =>
    simp only [Combotcha.no_crlf, true_iff]
    intro j
    cases j <;> simp
  | case3 a b rest hab =>
    obtain ⟨ha, hb⟩ := hab
    subst ha; subst hb
    simp only [Combotcha.no_crlf, if_pos (And.intro rfl rfl)]
    constructor
    · intro h
      exact absurd h (by simp)
    · intro h
      have h0 := h 0
      simp at h0
  | case4 a b rest hab ih =>
    rw [show Combotcha.no_crlf (a :: b :: rest) =
      Combotcha.no_crlf (b :: rest) by simp [Combotcha.no_crlf, hab]]
    rw [ih]
    constructor
    · intro h j
      cases j with
      | zero =>
        intro heq
        apply hab
        simpa using heq
      | succ k => exact h k
    · intro h j
      exact h (j + 1)

theorem no_crlf_append_cr (m : List Nat) (h : Combotcha.no_crlf m = true) :
    Combotcha.no_crlf (m ++ [13]) = true := by
  induction m using Combotcha.no_crlf.induct with
  | case1 => rfl
  | case2 a => simp [Combotcha.no_crlf]
  | case3 a b rest hab =>
    simp [Combotcha.no_crlf, if_pos hab] at h
  | case4 a b rest hab ih =>
    simp only [Combotcha.no_crlf, if_neg hab] at h
    simp only [List.cons_append, Combotcha.no_crlf, if_neg hab]
    exact ih h

theorem no_crlf_take (l : List Nat) (n : Nat)
    (h : Combotcha.no_crlf l = true) :
    Combotcha.no_crlf (l.take n) = true := by
  rw [no_crlf_iff_forall] at h ⊢
  intro j heq
  by_cases hlen : 2 ≤ ((l.take n).drop j).length
  · have hn2 : 2 ≤ n - j := by
      rw [List.length_drop, List.length_take] at hlen
      omega
    rw [List.drop_take, List.take_take, min_eq_left hn2] at heq
    exact h j heq
  · have h1 : (((l.take n).drop j).take 2).length ≤
        ((l.take n).drop j).length := by
      rw [List.length_take]
      exact Nat.min_le_right _ _
    rw [heq] at h1
    exact hlen h1

theorem no_crlf_frame_false (m r : List Nat) :
    Combotcha.no_crlf (m ++ 13 :: 10 :: r) = false := by
  cases hnc : Combotcha.no_crlf (m ++ 13 :: 10 :: r) with
  | false => rfl
  | true =>
    have h := (no_crlf_iff_forall _).mp hnc m.length
    rw [List.drop_left] at h
    simp at h

theorem find?_range'_eq_some (p : Nat → Bool) :
    ∀ (k s i : Nat), s ≤ i → i < s + k → p i = true →
      (∀ j, s ≤ j → j < i → p j = false) →
      (List.range' s k).find? p = some i := by
  intro k
  induction k with
  | zero =>
    intro s i h1 h2 _ _
    omega
  | succ n ih =>
    intro s i h1 h2 hp hmin
    rw [List.range'_succ]
    by_cases hsi : s = i
    · subst hsi
      exact List.find?_cons_of_pos _ hp
    · have hps : p s = false := hmin s le_rfl (by omega)
      rw [List.find?_cons_of_neg _ (by simp [hps])]
      exact ih (s + 1) i (by omega) (by omega) hp
        (fun j hj1 hj2 => hmin j (by omega) hj2)

theorem range_drop_one (n : Nat) :
    (List.range n).drop 1 = List.range' 1 (n - 1) := by
  cases n with
  | zero => rfl
  | succ k =>
    rw [List.range_eq_range', List.range'_succ]
    simp

theorem pop_message_frame (m r : List Nat)
    (hm : Combotcha.no_crlf m = true) :
    Combotcha.pop_message (m ++ 13 :: 10 :: r) = (some m, r) := by
  have hlen : (m ++ 13 :: 10 :: r).length = m.length + 2 + r.length := by
    simp
    omega
  unfold Combotcha.pop_message
  rw [if_pos (by omega)]
  rw [range_drop_one]
  rw [find?_range'_eq_some _ ((m ++ 13 :: 10 :: r).length - 1) 1
      (m.length + 1) (by omega) (by omega)
      (by
        simp only [Nat.add_sub_cancel, decide_eq_true_eq]
        rw [List.drop_left]
        rfl)
      (by
        intro j hj1 hj2
        rw [show m ++ 13 :: 10 :: r = (m ++ [13]) ++ 10 :: r by simp]
        rw [List.drop_append_of_le_length (by simp; omega)]
        rw [List.take_append_of_le_length (by rw [List.length_drop]; simp; omega)]
        apply decide_eq_false
        exact (no_crlf_iff_forall _).mp (no_crlf_append_cr m hm) (j - 1))]
  show (some ((m ++ 13 :: 10 :: r).take (m.length + 1 - 1)),
      (m ++ 13 :: 10 :: r).drop (m.length + 1 + 1)) = (some m, r)
  rw [Nat.add_sub_cancel]
  rw [List.take_left' rfl]
  rw [show m.length + 1 + 1 = m.length + 2 by omega]
  rw [show (13:Nat) :: 10 :: r = [13, 10] ++ r by simp]
  rw [← List.append_assoc]
  rw [List.drop_left' (by simp)]

theorem pop_message_no_crlf (buf : List Nat)
    (h : Combotcha.no_crlf buf = true) :
    Combotcha.pop_message buf = (none, buf) := by
  unfold Combotcha.pop_message
  by_cases hg : 1 < buf.length
  · rw [if_pos hg]
    have hfind : ((List.range buf.length).drop 1).find?
        (fun i => decide ((buf.drop (i - 1)).take 2 = [13, 10])) = none := by
      rw [List.find?_eq_none]
      intro i _
      simp only [decide_eq_true_eq]
      exact (no_crlf_iff_forall buf).mp h (i - 1)
    rw [hfind]
  · rw [if_neg hg]

theorem pop_message_some_length (buf m r : List Nat)
    (h : Combotcha.pop_message buf = (some m, r)) :
    r.length < buf.length := by
  unfold Combotcha.pop_message at h
  by_cases hg : 1 < buf.length
  · rw [if_pos hg] at h
    cases hfind : ((List.range buf.length).drop 1).find?
        (fun i => decide ((buf.drop (i - 1)).take 2 = [13, 10])) with
    | none =>
      rw [hfind] at h
      simp at h
    | some i =>
      rw [hfind] at h
      simp only [Prod.mk.injEq, Option.some.injEq] at h
      obtain ⟨h1, h2⟩ := h
      rw [← h2, List.length_drop]
      omega
  · rw [if_neg hg] at h
    simp at h

theorem pop_all_fuel_congr :
    ∀ (f1 f2 : Nat) (buf : List Nat), buf.length ≤ f1 → buf.length ≤ f2 →
      Combotcha.pop_all_fuel f1 buf = Combotcha.pop_all_fuel f2 buf := by
  intro f1
  induction f1 with
  | zero =>
    intro f2 buf h1 _
    have hb : buf = [] := List.length_eq_zero.mp (by omega)
    subst hb
    cases f2 with
    | zero => rfl
    | succ n => rfl
  | succ n ih =>
    intro f2 buf h1 h2
    cases f2 with
    | zero =>
      have hb : buf = [] := List.length_eq_zero.mp (by omega)
      subst hb
      rfl
    | succ k =>
      unfold Combotcha.pop_all_fuel
      cases hp : Combotcha.pop_message buf with
      | mk o rest =>
        cases o with
        | none => simp [hp]
        | some m =>
          have hlt := pop_message_some_length buf m rest hp
          have hrec := ih k rest (by omega) (by omega)
          simp [hp, hrec]

theorem pop_all_fuel_succ (fuel : Nat) (buf : List Nat) :
    Combotcha.pop_all_fuel (fuel + 1) buf =
      match Combotcha.pop_message buf with
      | (some m, r) =>
        (m :: (Combotcha.pop_all_fuel fuel r).1,
          (Combotcha.pop_all_fuel fuel r).2)
      | (none, _) => ([], buf) := rfl

theorem pop_all_some (buf m r : List Nat)
    (h : Combotcha.pop_message buf = (some m, r)) :
    Combotcha.pop_all buf =
      (m :: (Combotcha.pop_all r).1, (Combotcha.pop_all r).2) := by
  have hlt := pop_message_some_length buf m r h
  unfold Combotcha.pop_all
  cases hl : buf.length with
  | zero => omega
  | succ n =>
    rw [pop_all_fuel_succ, h]
    show (m :: (Combotcha.pop_all_fuel n r).1,
        (Combotcha.pop_all_fuel n r).2) =
      (m :: (Combotcha.pop_all_fuel r.length r).1,
        (Combotcha.pop_all_fuel r.length r).2)
    rw [pop_all_fuel_congr n r.length r (by omega) le_rfl]

theorem pop_all_none (buf : List Nat)
    (h : (Combotcha.pop_message buf).1 = none) :
    Combotcha.pop_all buf = ([], buf) := by
  unfold Combotcha.pop_all
  cases hl : buf.length with
  | zero =>
    have hb : buf = [] := List.length_eq_zero.mp hl
    subst hb
    rfl
  | succ n =>
    rw [pop_all_fuel_succ]
    cases hp : Combotcha.pop_message buf with
    | mk o rest =>
      cases o with
      | none => rfl
      | some m =>
        rw [hp] at h
        simp at h

theorem pop_all_partition :
    ∀ (msgs : List (List Nat)) (b t : List Nat),
      (∀ m ∈ msgs, Combotcha.no_crlf m = true) →
      b ++ t = Combotcha.encode msgs →
      ∃ ms1 ms2 p, msgs = ms1 ++ ms2 ∧ Combotcha.pop_all b = (ms1, p) ∧
        p ++ t = Combotcha.encode ms2 ∧ Combotcha.no_crlf p = true := by
  intro msgs
  induction msgs with
  | nil =>
    intro b t _ hbt
    simp [Combotcha.encode] at hbt
    obtain ⟨hb, ht⟩ := hbt
    subst hb
    subst ht
    exact ⟨[], [], [], by simp, rfl, by simp [Combotcha.encode], rfl⟩
  | cons m ms ih =>
    intro b t hcrlf hbt
    have hm : Combotcha.no_crlf m = true := hcrlf m (by simp)
    have hms : ∀ x ∈ ms, Combotcha.no_crlf x = true :=
      fun x hx => hcrlf x (by simp [hx])
    have henc : Combotcha.encode (m :: ms) =
        m ++ 13 :: 10 :: Combotcha.encode ms := by
      simp [Combotcha.encode]
    rw [henc] at hbt
    by_cases hlen : m.length + 2 ≤ b.length
    · obtain ⟨d, hd⟩ : ∃ d, b.drop (m.length + 2) = d := ⟨_, rfl⟩
      have h1 : b.take (m.length + 2) = m ++ [13, 10] := by
        have e1 : (b ++ t).take (m.length + 2) = b.take (m.length + 2) :=
          List.take_append_of_le_length hlen
        have e2 : (b ++ t).take (m.length + 2) = m ++ [13, 10] := by
          rw [hbt]
          rw [show m ++ 13 :: 10 :: Combotcha.encode ms =
            (m ++ [13, 10]) ++ Combotcha.encode ms by simp]
          exact List.take_left' (by simp)
        rw [← e1, e2]
      have hsplit : b = (m ++ [13, 10]) ++ d := by
        conv_lhs => rw [← List.take_append_drop (m.length + 2) b]
        rw [h1, hd]
      have hbt' : d ++ t = Combotcha.encode ms := by
        have e3 := hbt
        rw [hsplit, List.append_assoc] at e3
        rw [show m ++ 13 :: 10 :: Combotcha.encode ms =
          (m ++ [13, 10]) ++ Combotcha.encode ms by simp] at e3
        exact List.append_cancel_left e3
      have hpop : Combotcha.pop_message b = (some m, d) := by
        rw [hsplit]
        rw [show (m ++ [13, 10]) ++ d = m ++ 13 :: 10 :: d by simp]
        exact pop_message_frame m d hm
      obtain ⟨ms1, ms2, p, hmss, hpa, hpt, hpc⟩ := ih d t hms hbt'
      refine ⟨m :: ms1, ms2, p, by simp [hmss], ?_, hpt, hpc⟩
      rw [pop_all_some b m d hpop, hpa]
    · have hbpre : b = (m ++ [13]).take b.length := by
        have e1 : (b ++ t).take b.length = b := List.take_left' rfl
        have e2 : (b ++ t).take b.length = (m ++ [13]).take b.length := by
          rw [hbt]
          rw [show m ++ 13 :: 10 :: Combotcha.encode ms =
            (m ++ [13]) ++ 10 :: Combotcha.encode ms by simp]
          exact List.take_append_of_le_length (by simp; omega)
        conv_lhs => rw [← e1, e2]
      have hbcrlf : Combotcha.no_crlf b = true := by
        rw [hbpre]
        exact no_crlf_take _ _ (no_crlf_append_cr m hm)
      refine ⟨[], m :: ms, b, by simp, ?_, by rw [henc]; exact hbt, hbcrlf⟩
      exact pop_all_none b (by rw [pop_message_no_crlf b hbcrlf])

theorem feed_chunks_correct :
    ∀ (chunks : List (List Nat)) (msgs : List (List Nat)) (buf : List Nat),
      (∀ m ∈ msgs, Combotcha.no_crlf m = true) →
      Combotcha.no_crlf buf = true →
      buf ++ chunks.flatten = Combotcha.encode msgs →
      Combotcha.feed_chunks chunks buf = (msgs, []) := by
  intro chunks
  induction chunks with
  | nil =>
    intro msgs buf _ hb hbf
    simp at hbf
    cases msgs with
    | nil =>
      simp [Combotcha.encode] at hbf
      subst hbf
      rfl
    | cons m ms =>
      exfalso
      rw [show Combotcha.encode (m :: ms) =
        m ++ 13 :: 10 :: Combotcha.encode ms by simp [Combotcha.encode]] at hbf
      rw [hbf, no_crlf_frame_false] at hb
      simp at hb
  | cons c cs ih =>
    intro msgs buf hm hb hbf
    have hbt : (buf ++ c) ++ cs.flatten = Combotcha.encode msgs := by
      rw [List.append_assoc, ← List.flatten_cons]
      exact hbf
    obtain ⟨ms1, ms2, p, hmss, hpa, hpt, hpc⟩ :=
      pop_all_partition msgs (buf ++ c) cs.flatten hm hbt
    have hm2 : ∀ x ∈ ms2, Combotcha.no_crlf x = true := by
      intro x hx
      exact hm x (by rw [hmss]; simp [hx])
    have hrec := ih ms2 p hm2 hpc hpt
    show Combotcha.feed_chunks (c :: cs) buf = (msgs, [])
    unfold Combotcha.feed_chunks
    simp only [hpa, hrec, hmss]

/-! C6: framing reconstruction. -/

/-- C6: for every sequence of CRLF-delimited messages (none containing
the delimiter pair) and every partition of the encoded byte stream into
successive raw reads — including partitions splitting the delimiter
across reads — appending the reads to the reception buffer and
extracting with `pop_message` after each read reconstructs exactly the
original ordered message sequence, leaving an empty buffer. -/
theorem framing_reconstruction (msgs chunks : List (List Nat))
    (hm : ∀ m ∈ msgs, Combotcha.no_crlf m = true)
    (hc : chunks.flatten = Combotcha.encode msgs) :
    Combotcha.feed_chunks chunks [] = (msgs, []) :=
  feed_chunks_correct chunks msgs [] hm rfl (by simpa using hc)

/-- C6 witness: the two messages `Hi` and `!` split into reads that
straddle the delimiter. -/
theorem framing_reconstruction_witness :
    (∀ m ∈ [[72, 105], [33]], Combotcha.no_crlf m = true) ∧
    ([[72, 105, 13], [10, 33, 13, 10]] :
        List (List Nat)).flatten = Combotcha.encode [[72, 105], [33]] ∧
    Combotcha.feed_chunks [[72, 105, 13], [10, 33, 13, 10]] [] =
      ([[72, 105], [33]], []) :=
  ⟨by decide, by decide,
    framing_reconstruction [[72, 105], [33]] [[72, 105, 13], [10, 33, 13, 10]]
      (by decide) (by decide)⟩

/-! C7: handshake determinism. -/

/-- C7: feeding `sign_in` a line containing `No Ident response`, then a
line with numeric code 376, then a line with numeric code 366 (the
latter two not containing the identification trigger) completes the
handshake, sending exactly one identification pair — one `NICK` plus
one `USER` — followed by exactly one `JOIN`. -/
theorem sign_in_canned_sequence (nickname channel l1 l2 l3 : List Char)
    (h1 : substring_in Combotcha.ident_response l1 = true)
    (h2i : substring_in Combotcha.ident_response l2 = false)
    (h2 : Combotcha.get_payload_status l2 = some 376)
    (h3i : substring_in Combotcha.ident_response l3 = false)
    (h3 : Combotcha.get_payload_status l3 = some 366) :
    Combotcha.sign_in nickname channel [l1, l2, l3] =
      ([Command.nick nickname, Command.user nickname, Command.join channel],
        Combotcha.SignInOutcome.ok) := by
  unfold Combotcha.sign_in
  rw [if_pos h1]
  unfold Combotcha.sign_in
  rw [if_neg (by simp [h2i]), h2]
  unfold Combotcha.sign_in
  rw [if_neg (by simp [h3i]), h3]
  rfl

/-- C7 witness. -/
theorem sign_in_canned_sequence_witness :
    substring_in Combotcha.ident_response
      "x No Ident response".toList = true ∧
    substring_in Combotcha.ident_response ":s 376 n :end".toList = false ∧
    Combotcha.get_payload_status ":s 376 n :end".toList = some 376 ∧
    substring_in Combotcha.ident_response ":s 366 n :end".toList = false ∧
    Combotcha.get_payload_status ":s 366 n :end".toList = some 366 ∧
    Combotcha.sign_in "bot".toList "#ch".toList
        ["x No Ident response".toList, ":s 376 n :end".toList,
          ":s 366 n :end".toList] =
      ([Command.nick "bot".toList, Command.user "bot".toList,
        Command.join "#ch".toList], Combotcha.SignInOutcome.ok) :=
  ⟨by decide, by decide, by decide, by decide, by decide,
    sign_in_canned_sequence "bot".toList "#ch".toList
      "x No Ident response".toList ":s 376 n :end".toList
      ":s 366 n :end".toList (by decide) (by decide) (by decide)
      (by decide) (by decide)⟩

/-! C8: nickname collision. -/

/-- C8: on a 433 line before completion the two implementations embody
the two policies: the hand-rolled `sign_in` sends a quit command and
terminates with the distinguished `NicknameInUse` condition (ignoring
any further input), while the reimplementation's `on_nicknameinuse`
issues exactly one identification attempt under the previous nickname
with a `_` marker character appended. -/
theorem nickname_collision_policies (nickname channel l : List Char)
    (rest : List (List Char))
    (hni : substring_in Combotcha.ident_response l = false)
    (hs : Combotcha.get_payload_status l = some 433) :
    Combotcha.sign_in nickname channel (l :: rest) =
      ([Command.quit], Combotcha.SignInOutcome.nickname_in_use) ∧
    Combotsha.on_nicknameinuse nickname =
      [Command.nick (nickname ++ ['_'])] := by
  constructor
  · unfold Combotcha.sign_in
    rw [if_neg (by simp [hni]), hs]
  · rfl

/-- C8 witness. -/
theorem nickname_collision_policies_witness :
    substring_in Combotcha.ident_response ":s 433 n :x".toList = false ∧
    Combotcha.get_payload_status ":s 433 n :x".toList = some 433 ∧
    (Combotcha.sign_in "bot".toList "#ch".toList [":s 433 n :x".toList] =
      ([Command.quit], Combotcha.SignInOutcome.nickname_in_use) ∧
    Combotsha.on_nicknameinuse "bot".toList =
      [Command.nick ("bot".toList ++ ['_'])]) :=
  ⟨by decide, by decide,
    nickname_collision_policies "bot".toList "#ch".toList
      ":s 433 n :x".toList [] (by decide) (by decide)⟩

/-! C9: keepalive replies. -/

/-- C9 counterexample: for a `PING` line with two colons the reply
argument is the text between the first and second colon, not the entire
remainder of the line after the first colon. -/
theorem pong_segment_cex :
    Combotcha.handle_message "PING :a:b".toList =
      some [Command.pong (':' :: "a".toList)] ∧
    Combotcha.handle_message "PING :a:b".toList ≠
      some [Command.pong (':' :: "a:b".toList)] := by
  constructor
  · rfl
  · decide

/-- C9 (amended): a received line containing `PING` that splits on
colons into at least two segments is answered with exactly one `PONG`
whose argument is a colon followed by the text between the first and
second colon (the whole remainder only when the line has a single
colon); a `PING` line with no colon raises `IndexError` instead of
sending; a line not containing `PING` sends nothing. -/
theorem handle_message_keepalive (payload s0 s1 : List Char)
    (segs : List (List Char)) :
    (Combotcha.split_on_colon payload = s0 :: s1 :: segs →
      substring_in Combotcha.ping_token payload = true →
      Combotcha.handle_message payload = some [Command.pong (':' :: s1)]) ∧
    (Combotcha.split_on_colon payload = [s0] →
      substring_in Combotcha.ping_token payload = true →
      Combotcha.handle_message payload = none) ∧
    (substring_in Combotcha.ping_token payload = false →
      Combotcha.handle_message payload = some []) := by
  refine ⟨fun hsp hping => ?_, fun hsp hping => ?_, fun hping => ?_⟩
  · unfold Combotcha.handle_message Combotcha.pong
    rw [hping, hsp]
    simp
  · unfold Combotcha.handle_message Combotcha.pong
    rw [hping, hsp]
    simp
  · unfold Combotcha.handle_message
    rw [hping]
    simp

/-- C9 witness. -/
theorem handle_message_keepalive_witness :
    Combotcha.split_on_colon "PING :tok".toList =
      ["PING ".toList, "tok".toList] ∧
    substring_in Combotcha.ping_token "PING :tok".toList = true ∧
    Combotcha.handle_message "PING :tok".toList =
      some [Command.pong (':' :: "tok".toList)] ∧
    Combotcha.split_on_colon "PING x".toList = ["PING x".toList] ∧
    substring_in Combotcha.ping_token "PING x".toList = true ∧
    Combotcha.handle_message "PING x".toList = none ∧
    substring_in Combotcha.ping_token "hello".toList = false ∧
    Combotcha.handle_message "hello".toList = some [] :=
  ⟨by decide, by decide,
    (handle_message_keepalive "PING :tok".toList "PING ".toList
      "tok".toList []).1 (by decide) (by decide),
    by decide, by decide,
    (handle_message_keepalive "PING x".toList "PING x".toList [] []).2.1
      (by decide) (by decide),
    by decide,
    (handle_message_keepalive "hello".toList [] [] []).2.2 (by decide)⟩

/-! C10: first poll with no starting commit. -/

/-- C10: a hand-rolled `Repository` constructed without a starting
commit sha performs no fetch on its first `get_new_commits` call: it
adopts the clone-time tip of the local history as the marker and
returns an empty batch regardless of the remote state; commits pushed
between the clone and the first poll are then returned by the second
poll. -/
theorem first_poll_no_fetch (st : Combotcha.RepoState)
    (tip : Combotcha.Commit) (t : List Combotcha.Commit)
    (fetch : Option (List Combotcha.Commit))
    (p0 : Combotcha.Commit) (prest : List Combotcha.Commit)
    (hh : st.history = tip :: t) (hl : st.last_seen_commit_sha = none)
    (hpush : ∀ p ∈ p0 :: prest, tip.hexsha.isPrefixOf p.hexsha = false) :
    Combotcha.get_new_commits st fetch =
      Except.ok ({ st with last_seen_commit_sha := some tip.hexsha },
        [], false) ∧
    Combotcha.get_new_commits
        { st with last_seen_commit_sha := some tip.hexsha }
        (some ((p0 :: prest) ++ tip :: t)) =
      Except.ok
        ({ history := (p0 :: prest) ++ tip :: t,
           last_seen_commit_sha := some p0.hexsha }, p0 :: prest, true) := by
  obtain ⟨hist, sha⟩ := st
  simp only at hh hl
  subst hh
  subst hl
  constructor
  · rfl
  · have htw : ((p0 :: prest) ++ tip :: t).takeWhile
        (fun c => !(tip.hexsha.isPrefixOf c.hexsha)) = p0 :: prest := by
      refine takeWhile_middle _ _ t tip (fun x hx => ?_) ?_
      · simp [hpush x hx]
      · simp [ List.isPrefixOf_iff_prefix]
    unfold Combotcha.get_new_commits
    simp only [htw]

/-- C10 witness. -/
theorem first_poll_no_fetch_witness :
    w10_state.history = w10_tip :: [] ∧
    w10_state.last_seen_commit_sha = none ∧
    (∀ p ∈ [w10_new], w10_tip.hexsha.isPrefixOf p.hexsha = false) ∧
    (Combotcha.get_new_commits w10_state none =
      Except.ok ({ w10_state with
        last_seen_commit_sha := some w10_tip.hexsha }, [], false) ∧
    Combotcha.get_new_commits
        { w10_state with last_seen_commit_sha := some w10_tip.hexsha }
        (some ([w10_new] ++ w10_tip :: [])) =
      Except.ok
        ({ history := [w10_new] ++ w10_tip :: [],
           last_seen_commit_sha := some w10_new.hexsha }, [w10_new], true)) :=
  ⟨rfl, rfl, by decide,
    first_poll_no_fetch w10_state w10_tip [] none w10_new [] rfl rfl
      (by decide)⟩
